import Mathlib

/-!
Verification development for the WGT command-line parser
(src/cmdparse.h, src/string_utils.h).

Strings are modelled as lists of characters.  Every function is a direct
translation of the corresponding C++ routine.  Operations whose C++
execution is undefined (iterator arithmetic past the end of a container
or of a string) are modelled by the value none of an Option result; the
comments at those spots point to the exact source line.
-/

namespace WGT

/-- C-locale isspace on the ASCII range: space, tab, newline, vertical
tab, form feed, carriage return (string_utils::is_blank / trim). -/
def isSpaceCh (c : Char) : Bool :=
  c == ' ' || c == '\t' || c == '\n' || c == '\r' || c.toNat == 11 || c.toNat == 12

/-- C-locale tolower: maps A..Z to a..z, identity elsewhere
(string_utils::make_lower applies this to every character). -/
def toLowerCh (c : Char) : Char :=
  if 65 <= c.toNat && c.toNat <= 90 then Char.ofNat (c.toNat + 32) else c

/-- string_utils::make_lower on std::string. -/
def make_lower (s : List Char) : List Char := s.map toLowerCh

/-- string_utils::is_blank: all characters satisfy isspace. -/
def is_blank (s : List Char) : Bool := s.all isSpaceCh

/-- string_utils::ltrim (whitespace version). -/
def ltrimWs (s : List Char) : List Char := s.dropWhile isSpaceCh

/-- string_utils trim from the end (whitespace): drop trailing whitespace. -/
def rtrimWs (s : List Char) : List Char := (s.reverse.dropWhile isSpaceCh).reverse

/-- string_utils::trim with the default character, i.e. whitespace
trimming from both ends. -/
def trimWs (s : List Char) : List Char := rtrimWs (ltrimWs s)

/-- string_utils::ltrim with an explicit character: erase every leading
occurrence of that character. -/
def ltrimChar (s : List Char) (c : Char) : List Char :=
  s.dropWhile (fun x => x == c)

/-- The corresponding right trim with an explicit character. -/
def rtrimChar (s : List Char) (c : Char) : List Char :=
  (s.reverse.dropWhile (fun x => x == c)).reverse

/-- string_utils::trim with an explicit character: both ends. -/
def trimChar (s : List Char) (c : Char) : List Char :=
  rtrimChar (ltrimChar s c) c

/-- One declared command-line option (struct cmdOption): long name,
short name, default value, and the value assigned during parsing. -/
structure cmdOption where
  longName : List Char
  shortName : List Char
  defaultValue : List Char
  paramValue : List Char
deriving DecidableEq, Repr

/-- The three-argument cmdOption constructor: a blank short name is
replaced by the long name; paramValue starts empty. -/
def mkOption (optionName : List Char) (defaultV : List Char)
    (optionNameShort : List Char) : cmdOption :=
  { longName := optionName
    shortName := if is_blank optionNameShort then optionName else optionNameShort
    defaultValue := defaultV
    paramValue := [] }

/-- The default-constructed cmdOption (every field empty). -/
def emptyOption : cmdOption :=
  { longName := [], shortName := [], defaultValue := [], paramValue := [] }

/-- The set key of an option: its lower-cased long name
(cmdOption::operator< compares these). -/
def optKey (o : cmdOption) : List Char := make_lower o.longName

/-- Boolean strict comparison of characters by code point
(char comparison inside std::string::operator<). -/
def charLt (a b : Char) : Bool := decide (a.toNat < b.toNat)

/-- Lexicographic comparison of character lists, the semantics of
std::string::operator< used by cmdOption::operator<. -/
def listLt : List Char → List Char → Bool
  | _, [] => false
  | [], _ :: _ => true
  | a :: as, b :: bs => charLt a b || (!charLt b a && listLt as bs)

/-- cmdOption::operator<: case-insensitive comparison of long names. -/
def optLt (a b : cmdOption) : Bool := listLt (optKey a) (optKey b)

/-- std::set<cmdOption>::insert on the sorted element list: insert in
order, or reject (leaving the list unchanged) when an element with an
equivalent key is already present.  The Bool is result.second. -/
def setInsert (l : List cmdOption) (o : cmdOption) : List cmdOption × Bool :=
  match l with
  | [] => ([o], true)
  | x :: xs =>
    if optLt o x = true then (o :: x :: xs, true)
    else if optLt x o = true then (x :: (setInsert xs o).1, (setInsert xs o).2)
    else (x :: xs, false)

/-- std::set<cmdOption>::find with the key cmdOption(name): locate the
element whose lower-cased long name equals the lower-cased name. -/
def setFind (l : List cmdOption) (name : List Char) : Option cmdOption :=
  l.find? (fun o => optKey o == make_lower name)

/-- get_value<std::string>(): stream extraction into a string skips
leading whitespace and reads up to the next whitespace; on an empty
stream the default-constructed (empty) string is returned. -/
def get_value_string (o : cmdOption) : List Char :=
  (o.paramValue.dropWhile isSpaceCh).takeWhile (fun c => !isSpaceCh c)

/-- Is c an ASCII decimal digit (for the stoi model). -/
def isDigitCh (c : Char) : Bool := decide (48 <= c.toNat && c.toNat <= 57)

/-- std::stoi on the stored text: skip whitespace, optional sign, then
digits; none models the exception thrown when no digit is present or
the value falls outside the int range. -/
def stoi (s : List Char) : Option Int :=
  let t := s.dropWhile isSpaceCh
  let signAndRest : Int × List Char :=
    match t with
    | '-' :: r => (-1, r)
    | '+' :: r => (1, r)
    | r => (1, r)
  let digits := signAndRest.2.takeWhile isDigitCh
  if digits.isEmpty then none
  else
    let mag : Nat := digits.foldl (fun a c => a * 10 + (c.toNat - 48)) 0
    let v : Int := signAndRest.1 * (mag : Int)
    if v < -2147483648 || 2147483647 < v then none else some v

/-- get_value<int>(): stoi applied to paramValue. -/
def get_value_int (o : cmdOption) : Option Int := stoi o.paramValue

/-- cmdOption::has_value: is_blank applied to paramValue (note: the
function returns true when the assigned value is blank). -/
def has_value (o : cmdOption) : Bool := is_blank o.paramValue

/-- The state of a cmdParse object. -/
structure cmdParse where
  m_executable_name : List Char
  m_arguments : List (List Char)
  m_parameter_options : List cmdOption
  m_errors : List (List Char)
deriving DecidableEq, Repr

/-- A freshly default-constructed cmdParse. -/
def emptyParse : cmdParse :=
  { m_executable_name := [], m_arguments := [], m_parameter_options := [], m_errors := [] }

/-- cmdParse::add_param_option: attempt the set insertion; on failure
log "Option already exists: " + longName and return false. -/
def add_param_option (p : cmdParse) (o : cmdOption) : cmdParse × Bool :=
  if (setInsert p.m_parameter_options o).2 = true then
    ({ p with m_parameter_options := (setInsert p.m_parameter_options o).1 }, true)
  else
    ({ p with m_errors := p.m_errors ++ [ ("Option already exists: ".toList) ++ o.longName ] }, false)

/-- The cmdParse constructor taking a vector of prepared options: add
each in order (the Bool result of each add is discarded). -/
def cmdParseOf (optionVec : List cmdOption) : cmdParse :=
  optionVec.foldl (fun p o => (add_param_option p o).1) emptyParse

/-- cmdParse::getFullOptionName: linear scan of the option set for an
exact (case-sensitive) short-name match; empty string when absent. -/
def getFullOptionName (opts : List cmdOption) (short : List Char) : List Char :=
  match opts.find? (fun o => o.shortName == short) with
  | some o => o.longName
  | none => []

/-- The isOptionPrefix lambda inside parseOptions: does the token start
with a dash?  (On an empty std::string, s[0] reads the stored null
terminator, which is not a dash.) -/
def isOptionStart (s : List Char) : Bool :=
  match s with
  | [] => false
  | c :: _ => c == '-'

/-- Indexing a std::string of length > i at i, or the stored null
terminator when i equals the length (used for fullOptionString[1]). -/
def nthChar (s : List Char) (i : Nat) : Char := s.getD i (Char.ofNat 0)

/-- The delimiter scan inside parseOptions: space, colon or equals. -/
def isDelim (c : Char) : Bool := c == ' ' || c == ':' || c == '='

/-- Outcome of handling one concatenated segment string:
ub marks the undefined iterator arithmetic of the source, fail carries
the error list after the logged message (parse returns false), ok
carries the updated option set. -/
inductive SegResult where
  | ub : SegResult
  | fail : List (List Char) → SegResult
  | ok : List cmdOption → SegResult
deriving DecidableEq, Repr

/-- Look the (long) name up in the option set and update its value by
erase-and-reinsert, or log "Option not found: " + name and fail. -/
def lookupAndUpdate (opts : List cmdOption) (errs : List (List Char))
    (name value : List Char) : SegResult :=
  match setFind opts name with
  | none => SegResult.fail (errs ++ [ ("Option not found: ".toList) ++ name ])
  | some o =>
    let updated := { o with paramValue := value }
    let erased := opts.eraseP (fun x => optKey x == make_lower name)
    SegResult.ok (setInsert erased updated).1

/-- The per-segment body of cmdParse::parseOptions, starting from the
concatenated fullOptionString: classify long/short form, strip leading
dashes, split at the first delimiter, trim name and value, strip
surrounding double quotes from the value, resolve a short name, and
update the registry.  When no delimiter exists the source iterates the
value loop from one past the end of the string: undefined behaviour,
modelled as SegResult.ub. -/
def processSegment (opts : List cmdOption) (errs : List (List Char))
    (fos : List Char) : SegResult :=
  let useFullOptionName := nthChar fos 0 == '-' && nthChar fos 1 == '-'
  let s := ltrimChar fos '-'
  match s.findIdx? isDelim with
  | none => SegResult.ub
  | some i =>
    let name := trimWs (s.take i)
    let value := trimChar (trimWs (s.drop (i + 1))) '\"'
    if useFullOptionName then lookupAndUpdate opts errs name value
    else
      let resolved := getFullOptionName opts name
      if resolved.isEmpty then
        SegResult.fail (errs ++ [ ("Option not found: ".toList) ++ resolved ])
      else lookupAndUpdate opts errs resolved value

/-- The cursor loop of cmdParse::parseOptions over the remaining
argument tokens.  Each iteration finds the next dash-prefixed token,
collects the tokens up to (not including) the next dash-prefixed token,
concatenates them with no separator, and handles the segment.  When the
remaining tokens are non-empty but contain no dash-prefixed token, the
source evaluates find_if(start+1, end) with start already equal to the
past-the-end iterator: undefined behaviour, modelled as none.  The fuel
argument only bounds the recursion; the loop consumes at least one
token per iteration, so fuel exceeding the token count never runs out
(parseOptions passes length + 1). -/
def parseLoopF : Nat → List cmdOption → List (List Char) → List (List Char) →
    Option (List cmdOption × List (List Char) × Bool)
  | 0, _, _, _ => none
  | fuel + 1, opts, errs, rest =>
    match rest with
    | [] => some (opts, errs, true)
    | _ :: _ =>
      match rest.dropWhile (fun t => !isOptionStart t) with
      | [] => none
      | startTok :: after =>
        match processSegment opts errs
            ((after.takeWhile (fun t => !isOptionStart t)).foldl (fun a b => a ++ b) startTok) with
        | SegResult.ub => none
        | SegResult.fail errs2 => some (opts, errs2, false)
        | SegResult.ok opts2 =>
          parseLoopF fuel opts2 errs (after.dropWhile (fun t => !isOptionStart t))

/-- cmdParse::parseOptions on the stored state. -/
def parseOptions (p : cmdParse) : Option (cmdParse × Bool) :=
  match parseLoopF (p.m_arguments.length + 1) p.m_parameter_options p.m_errors p.m_arguments with
  | none => none
  | some (opts2, errs2, b) =>
    some ({ p with m_parameter_options := opts2, m_errors := errs2 }, b)

/-- cmdParse::init: reject a non-positive argument count with the
"No arguments given to application" error; otherwise record argv[0] as
the executable name, append the whitespace-trimmed tokens argv[1..argc)
to the argument list, and run parseOptions.  Reading past the actual
argv array (argc larger than the token list) is undefined: none. -/
def init (p : cmdParse) (argc : Int) (argv : List (List Char)) :
    Option (cmdParse × Bool) :=
  if argc <= 0 then
    some ({ p with m_errors := p.m_errors ++ [ ("No arguments given to application".toList) ] }, false)
  else if (argv.length : Int) < argc then none
  else
    match argv with
    | [] => none
    | a0 :: restv =>
      let args := (restv.take (argc.toNat - 1)).map trimWs
      let p2 := { p with m_executable_name := a0, m_arguments := p.m_arguments ++ args }
      parseOptions p2

/-- cmdParse::get_arguments. -/
def get_arguments (p : cmdParse) : List (List Char) := p.m_arguments

/-- cmdParse::get_param_option_count. -/
def get_param_option_count (p : cmdParse) : Nat := p.m_parameter_options.length

/-- cmdParse::has_param_option. -/
def has_param_option (p : cmdParse) (name : List Char) : Bool :=
  (setFind p.m_parameter_options name).isSome

/-- cmdParse::get_param_option: the matching option, or the
default-constructed sentinel when absent. -/
def get_param_option (p : cmdParse) (name : List Char) : cmdOption :=
  (setFind p.m_parameter_options name).getD emptyOption

/-- One line of the help text: four spaces, -short, comma, --long. -/
def helpLine (o : cmdOption) : List Char :=
  ("    -".toList) ++ o.shortName ++ (", --".toList) ++ o.longName ++ [ '\n' ]

/-- cmdParse::get_helpstring: the executable name and header, one line
per option in set iteration order, then the version footer. -/
def get_helpstring (p : cmdParse) : List Char :=
  (p.m_parameter_options.foldl (fun acc o => acc ++ helpLine o)
    (p.m_executable_name ++ (" [options]\n where options are:\n".toList)))
  ++ ("\n\n(version 1.0)".toList)

/-- cmdParse::has_errors. -/
def has_errors (p : cmdParse) : Bool := !p.m_errors.isEmpty

/-- cmdParse::get_errors. -/
def get_errors (p : cmdParse) : List (List Char) := p.m_errors

/-- cmdParse::clear_errors. -/
def clear_errors (p : cmdParse) : cmdParse := { p with m_errors := [] }

/-- The parser state after a run of init (the state argument itself if
the run is undefined). -/
def afterInit (p : cmdParse) (argc : Int) (argv : List (List Char)) : cmdParse :=
  match init p argc argv with
  | some r => r.1
  | none => p

/-- The Bool returned by a run of init (false if the run is undefined). -/
def initOk (p : cmdParse) (argc : Int) (argv : List (List Char)) : Bool :=
  match init p argc argv with
  | some r => r.2
  | none => false

/-- BufferSize option of the unit tests: default 1000, short b. -/
def bufOpt : cmdOption := mkOption ("BufferSize".toList) ("1000".toList) ("b".toList)

/-- OutputFile option of the unit tests: default output.txt, short o. -/
def outOpt : cmdOption := mkOption ("OutputFile".toList) ("output.txt".toList) ("o".toList)

/-- optionA of the unit tests: default 3, short a. -/
def optA : cmdOption := mkOption ("optionA".toList) ("3".toList) ("a".toList)

/-- Parser declaring only BufferSize. -/
def pBuf : cmdParse := cmdParseOf [bufOpt]

/-- Parser declaring only OutputFile. -/
def pOut : cmdParse := cmdParseOf [outOpt]

/-- Parser declaring only optionA. -/
def pA : cmdParse := cmdParseOf [optA]

/-- Parser declaring BufferSize and OutputFile. -/
def pBufOut : cmdParse := cmdParseOf [bufOpt, outOpt]

/-- An executable-name token. -/
def exeTok : List Char := "app".toList

/-- The long name BufferSize as a lookup key. -/
def nmBuffer : List Char := "BufferSize".toList

/-- The long name OutputFile as a lookup key. -/
def nmOutput : List Char := "OutputFile".toList

/-- The long name optionA as a lookup key. -/
def nmA : List Char := "optionA".toList

/-- Two characters with equal code points are equal. -/
theorem charEqOfToNatEq {a b : Char} (h : a.toNat = b.toNat) : a = b :=
  Char.ext (UInt32.ext h)

/-- charLt agrees with the strict order on code points. -/
theorem charLt_eq_true {a b : Char} (h : a.toNat < b.toNat) : charLt a b = true :=
  decide_eq_true h

/-- charLt is false when the code points are not strictly ordered. -/
theorem charLt_eq_false {a b : Char} (h : ¬ a.toNat < b.toNat) : charLt a b = false :=
  decide_eq_false h

/-- charLt is irreflexive. -/
theorem charLt_irrefl (a : Char) : charLt a a = false :=
  charLt_eq_false (Nat.lt_irrefl _)

/-- The lexicographic string comparison is irreflexive. -/
theorem listLt_irrefl : ∀ (l : List Char), listLt l l = false := by
  intro l
  induction l with
  | nil => rfl
  | cons a as ih => simp [listLt, charLt_irrefl, ih]

/-- The lexicographic string comparison is asymmetric. -/
theorem listLt_asymm : ∀ (a b : List Char), listLt a b = true → listLt b a = false := by
  intro a
  induction a with
  | nil =>
    intro b h
    cases b with
    | nil => exact absurd h (by simp [listLt])
    | cons y ys => rfl
  | cons x xs ih =>
    intro b h
    cases b with
    | nil => exact absurd h (by simp [listLt])
    | cons y ys =>
      rcases Nat.lt_trichotomy x.toNat y.toNat with hlt | heq | hgt
      · have h1 : charLt y x = false := charLt_eq_false (Nat.lt_asymm hlt)
        have h2 : charLt x y = true := charLt_eq_true hlt
        simp [listLt, h1, h2]
      · have hxy : x = y := charEqOfToNatEq heq
        subst hxy
        rw [listLt, charLt_irrefl] at h
        simp at h
        simp [listLt, charLt_irrefl, ih ys h]
      · have h1 : charLt x y = false := charLt_eq_false (Nat.lt_asymm hgt)
        have h2 : charLt y x = true := charLt_eq_true hgt
        rw [listLt, h1, h2] at h
        simp at h

/-- The lexicographic string comparison is transitive. -/
theorem listLt_trans : ∀ (a b c : List Char),
    listLt a b = true → listLt b c = true → listLt a c = true := by
  intro a
  induction a with
  | nil =>
    intro b c h1 h2
    cases b with
    | nil => exact absurd h1 (by simp [listLt])
    | cons y ys =>
      cases c with
      | nil => exact absurd h2 (by simp [listLt])
      | cons z zs => rfl
  | cons x xs ih =>
    intro b c h1 h2
    cases b with
    | nil => exact absurd h1 (by simp [listLt])
    | cons y ys =>
      cases c with
      | nil => exact absurd h2 (by simp [listLt])
      | cons z zs =>
        rcases Nat.lt_trichotomy x.toNat y.toNat with hxy | hxy | hxy
        · rcases Nat.lt_trichotomy y.toNat z.toNat with hyz | hyz | hyz
          · simp [listLt, charLt_eq_true (Nat.lt_trans hxy hyz)]
          · have hyzc : y = z := charEqOfToNatEq hyz
            subst hyzc
            simp [listLt, charLt_eq_true hxy]
          · rw [listLt, charLt_eq_false (Nat.lt_asymm hyz), charLt_eq_true hyz] at h2
            simp at h2
        · have hxyc : x = y := charEqOfToNatEq hxy
          subst hxyc
          rw [listLt, charLt_irrefl] at h1
          simp at h1
          rcases Nat.lt_trichotomy x.toNat z.toNat with hxz | hxz | hxz
          · simp [listLt, charLt_eq_true hxz]
          · have hxzc : x = z := charEqOfToNatEq hxz
            subst hxzc
            rw [listLt, charLt_irrefl] at h2
            simp at h2
            simp [listLt, charLt_irrefl, ih ys zs h1 h2]
          · rw [listLt, charLt_eq_false (Nat.lt_asymm hxz), charLt_eq_true hxz] at h2
            simp at h2
        · rw [listLt, charLt_eq_false (Nat.lt_asymm hxy), charLt_eq_true hxy] at h1
          simp at h1

/-- Strings unordered in both directions are equal (connectedness). -/
theorem listLt_conn : ∀ (a b : List Char),
    listLt a b = false → listLt b a = false → a = b := by
  intro a
  induction a with
  | nil =>
    intro b h1 _
    cases b with
    | nil => rfl
    | cons y ys => exact absurd h1 (by simp [listLt])
  | cons x xs ih =>
    intro b h1 h2
    cases b with
    | nil => exact absurd h2 (by simp [listLt])
    | cons y ys =>
      rcases Nat.lt_trichotomy x.toNat y.toNat with hlt | heq | hgt
      · rw [listLt, charLt_eq_true hlt] at h1
        simp at h1
      · have hxy : x = y := charEqOfToNatEq heq
        subst hxy
        rw [listLt, charLt_irrefl] at h1
        simp at h1
        rw [listLt, charLt_irrefl] at h2
        simp at h2
        rw [ih ys h1 h2]
      · rw [listLt, charLt_eq_true hgt] at h2
        simp at h2

/-- The option comparison is transitive. -/
theorem optLt_trans {a b c : cmdOption}
    (h1 : optLt a b = true) (h2 : optLt b c = true) : optLt a c = true :=
  listLt_trans _ _ _ h1 h2

/-- Inserting an option whose key is already present in a sorted
element list leaves the list unchanged and reports failure, exactly as
std::set::insert does. -/
theorem setInsert_of_memKey (o x : cmdOption) (hk : optKey x = optKey o) :
    ∀ (l : List cmdOption), List.Pairwise (fun a b => optLt a b = true) l →
      x ∈ l → setInsert l o = (l, false) := by
  intro l
  induction l with
  | nil => intro _ hx; cases hx
  | cons y ys ih =>
    intro hs hx
    rw [List.pairwise_cons] at hs
    by_cases h1 : optLt o y = true
    · exfalso
      rcases List.mem_cons.mp hx with rfl | hmem
      · simp only [optLt] at h1
        rw [hk] at h1
        rw [listLt_irrefl] at h1
        exact Bool.noConfusion h1
      · have h2 : optLt y x = true := hs.1 x hmem
        simp only [optLt] at h1 h2
        rw [hk] at h2
        have h3 := listLt_asymm _ _ h1
        rw [h3] at h2
        exact Bool.noConfusion h2
    · by_cases h2 : optLt y o = true
      · rcases List.mem_cons.mp hx with rfl | hmem
        · exfalso
          simp only [optLt] at h2
          rw [hk] at h2
          rw [listLt_irrefl] at h2
          exact Bool.noConfusion h2
        · rw [setInsert, if_neg h1, if_pos h2, ih hs.2 hmem]
      · rw [setInsert, if_neg h1, if_neg h2]

/-- Members of the list produced by setInsert are the inserted option
or members of the original list. -/
theorem mem_setInsert (o y : cmdOption) :
    ∀ (l : List cmdOption), y ∈ (setInsert l o).1 → y = o ∨ y ∈ l := by
  intro l
  induction l with
  | nil =>
    intro h
    rw [setInsert] at h
    rcases List.mem_cons.mp h with rfl | h'
    · exact Or.inl rfl
    · cases h'
  | cons x xs ih =>
    intro h
    rw [setInsert] at h
    by_cases h1 : optLt o x = true
    · rw [if_pos h1] at h
      rcases List.mem_cons.mp h with rfl | h'
      · exact Or.inl rfl
      · exact Or.inr h'
    · rw [if_neg h1] at h
      by_cases h2 : optLt x o = true
      · rw [if_pos h2] at h
        rcases List.mem_cons.mp h with rfl | h'
        · exact Or.inr (List.mem_cons_self _ _)
        · rcases ih h' with h'' | h''
          · exact Or.inl h''
          · exact Or.inr (List.mem_cons_of_mem _ h'')
      · rw [if_neg h2] at h
        exact Or.inr h

/-- setInsert preserves sortedness of the element list. -/
theorem setInsert_sorted (o : cmdOption) :
    ∀ (l : List cmdOption), List.Pairwise (fun a b => optLt a b = true) l →
      List.Pairwise (fun a b => optLt a b = true) (setInsert l o).1 := by
  intro l
  induction l with
  | nil =>
    intro _
    rw [setInsert]
    exact List.pairwise_singleton _ _
  | cons x xs ih =>
    intro hs
    rw [List.pairwise_cons] at hs
    rw [setInsert]
    by_cases h1 : optLt o x = true
    · rw [if_pos h1]
      rw [List.pairwise_cons]
      constructor
      · intro a ha
        rcases List.mem_cons.mp ha with rfl | hmem
        · exact h1
        · exact optLt_trans h1 (hs.1 a hmem)
      · rw [List.pairwise_cons]
        exact hs
    · rw [if_neg h1]
      by_cases h2 : optLt x o = true
      · rw [if_pos h2]
        rw [List.pairwise_cons]
        constructor
        · intro a ha
          rcases mem_setInsert o a xs ha with rfl | hmem
          · exact h2
          · exact hs.1 a hmem
        · exact ih hs.2
      · rw [if_neg h2]
        rw [List.pairwise_cons]
        exact hs

/-- When no element of the list shares the key of the inserted option,
setInsert succeeds and the result is a permutation of the option
consed onto the original list. -/
theorem setInsert_perm (o : cmdOption) :
    ∀ (l : List cmdOption), (∀ x ∈ l, optKey x ≠ optKey o) →
      (setInsert l o).2 = true ∧ List.Perm (setInsert l o).1 (o :: l) := by
  intro l
  induction l with
  | nil =>
    intro _
    rw [setInsert]
    exact ⟨rfl, List.Perm.refl _⟩
  | cons x xs ih =>
    intro hno
    rw [setInsert]
    by_cases h1 : optLt o x = true
    · rw [if_pos h1]
      exact ⟨rfl, List.Perm.refl _⟩
    · by_cases h2 : optLt x o = true
      · rw [if_neg h1, if_pos h2]
        have hxs : ∀ y ∈ xs, optKey y ≠ optKey o := by
          intro y hy
          exact hno y (List.mem_cons_of_mem _ hy)
        obtain ⟨hb, hp⟩ := ih hxs
        refine ⟨hb, ?_⟩
        have step1 : List.Perm (x :: (setInsert xs o).1) (x :: o :: xs) :=
          List.Perm.cons x hp
        exact step1.trans (List.Perm.swap o x xs)
      · exfalso
        have h1' : optLt o x = false := by
          revert h1; cases optLt o x <;> simp
        have h2' : optLt x o = false := by
          revert h2; cases optLt x o <;> simp
        have : optKey o = optKey x := listLt_conn _ _ h1' h2'
        exact hno x (List.mem_cons_self _ _) this.symm

/-- Adding a list of options with pairwise distinct keys, none of which
collides with the accumulated registry, keeps the registry sorted and
extends it by exactly those options (up to order). -/
theorem addAll_sorted_perm :
    ∀ (l : List cmdOption) (p : cmdParse),
      List.Pairwise (fun a b => optLt a b = true) p.m_parameter_options →
      (∀ x ∈ p.m_parameter_options, ∀ y ∈ l, optKey x ≠ optKey y) →
      List.Pairwise (fun a b => optKey a ≠ optKey b) l →
      List.Pairwise (fun a b => optLt a b = true)
          (l.foldl (fun q o => (add_param_option q o).1) p).m_parameter_options
      ∧ List.Perm (l.foldl (fun q o => (add_param_option q o).1) p).m_parameter_options
          (p.m_parameter_options ++ l) := by
  intro l
  induction l with
  | nil =>
    intro p hs _ _
    exact ⟨hs, by simp⟩
  | cons o rest ih =>
    intro p hs hdisj hkeys
    rw [List.pairwise_cons] at hkeys
    have hno : ∀ x ∈ p.m_parameter_options, optKey x ≠ optKey o := by
      intro x hx
      exact hdisj x hx o (List.mem_cons_self _ _)
    obtain ⟨hins, hinsPerm⟩ := setInsert_perm o p.m_parameter_options hno
    have hstep : (add_param_option p o).1
        = { p with m_parameter_options := (setInsert p.m_parameter_options o).1 } := by
      rw [add_param_option, if_pos hins]
    have hstepOpts : (add_param_option p o).1.m_parameter_options
        = (setInsert p.m_parameter_options o).1 := by
      rw [hstep]
    have hsorted2 : List.Pairwise (fun a b => optLt a b = true)
        (add_param_option p o).1.m_parameter_options := by
      rw [hstepOpts]
      exact setInsert_sorted o p.m_parameter_options hs
    have hdisj2 : ∀ x ∈ (add_param_option p o).1.m_parameter_options,
        ∀ y ∈ rest, optKey x ≠ optKey y := by
      intro x hx y hy
      rw [hstepOpts] at hx
      rcases mem_setInsert o x p.m_parameter_options hx with rfl | hmem
      · exact hkeys.1 y hy
      · exact hdisj x hmem y (List.mem_cons_of_mem _ hy)
    obtain ⟨hfsort, hfperm⟩ := ih (add_param_option p o).1 hsorted2 hdisj2 hkeys.2
    refine ⟨by simpa using hfsort, ?_⟩
    have hperm2 : List.Perm ((add_param_option p o).1.m_parameter_options ++ rest)
        ((o :: p.m_parameter_options) ++ rest) := by
      apply List.Perm.append_right
      rw [hstepOpts]
      exact hinsPerm
    have hperm3 : List.Perm (p.m_parameter_options ++ o :: rest)
        (o :: (p.m_parameter_options ++ rest)) := List.perm_middle
    have := (hfperm.trans hperm2).trans hperm3.symm
    simpa using this

/-- A registry built by the vector constructor from options with
pairwise distinct case-insensitive long names is sorted and holds
exactly the declared options. -/
theorem cmdParseOf_sorted_perm (l : List cmdOption)
    (hk : List.Pairwise (fun a b => optKey a ≠ optKey b) l) :
    List.Pairwise (fun a b => optLt a b = true) (cmdParseOf l).m_parameter_options
    ∧ List.Perm (cmdParseOf l).m_parameter_options l := by
  have hbase : List.Pairwise (fun a b => optLt a b = true) emptyParse.m_parameter_options := by
    rw [emptyParse]
    exact List.Pairwise.nil
  have hdisj : ∀ x ∈ emptyParse.m_parameter_options, ∀ y ∈ l, optKey x ≠ optKey y := by
    intro x hx
    rw [emptyParse] at hx
    cases hx
  obtain ⟨h1, h2⟩ := addAll_sorted_perm l emptyParse hbase hdisj hk
  refine ⟨h1, ?_⟩
  rw [cmdParseOf]
  simpa [emptyParse] using h2

/-- Folding the help lines from any initial accumulator factors the
accumulator out in front. -/
theorem helpFold_factor :
    ∀ (l : List cmdOption) (a : List Char),
      l.foldl (fun acc o => acc ++ helpLine o) a
        = a ++ l.foldl (fun acc o => acc ++ helpLine o) [] := by
  intro l
  induction l with
  | nil => intro a; simp
  | cons o t ih =>
    intro a
    rw [List.foldl_cons, List.foldl_cons, ih (a ++ helpLine o), ih ([] ++ helpLine o)]
    simp

/-- dropWhile never lengthens a list. -/
theorem lengthDropWhileLe {α : Type} (q : α → Bool) :
    ∀ (l : List α), (l.dropWhile q).length ≤ l.length := by
  intro l
  induction l with
  | nil => simp
  | cons x xs ih =>
    rw [List.dropWhile_cons]
    by_cases h : q x = true
    · rw [if_pos h]
      exact Nat.le_succ_of_le ih
    · rw [if_neg h]

/-- The fuelled cursor loop does not depend on the fuel as soon as the
fuel exceeds the number of remaining tokens: each iteration consumes at
least one token.  In particular parseOptions, which passes
length + 1, computes the loop of the source. -/
theorem parseLoopF_fuel :
    ∀ (f1 f2 : Nat) (opts : List cmdOption) (errs : List (List Char))
      (rest : List (List Char)),
      rest.length < f1 → rest.length < f2 →
      parseLoopF f1 opts errs rest = parseLoopF f2 opts errs rest := by
  intro f1
  induction f1 with
  | zero =>
    intro f2 opts errs rest h1 _
    exact absurd h1 (Nat.not_lt_zero _)
  | succ f1 ih =>
    intro f2 opts errs rest h1 h2
    cases f2 with
    | zero => exact absurd h2 (Nat.not_lt_zero _)
    | succ f2 =>
      cases rest with
      | nil => rfl
      | cons t ts =>
        rw [parseLoopF, parseLoopF]
        cases hdw : (t :: ts).dropWhile (fun t => !isOptionStart t) with
        | nil => rfl
        | cons startTok after =>
          rw [List.length_cons] at h1 h2
          have hlen : after.length + 1 ≤ ts.length + 1 := by
            have hle := lengthDropWhileLe (fun t => !isOptionStart t) (t :: ts)
            rw [hdw] at hle
            simpa using hle
          have hrest2 : (after.dropWhile (fun t => !isOptionStart t)).length < ts.length + 1 := by
            have := lengthDropWhileLe (fun t => !isOptionStart t) after
            omega
          cases hps : processSegment opts errs
              ((after.takeWhile (fun t => !isOptionStart t)).foldl (fun a b => a ++ b) startTok) with
          | ub => simp only [hps]
          | fail errs2 => simp only [hps]
          | ok opts2 =>
            simp only [hps]
            exact ih f2 opts2 errs (after.dropWhile (fun t => !isOptionStart t))
              (by omega) (by omega)

/-- Dropping the leading occurrences of a character leaves a list whose
head is not that character. -/
theorem headDropWhileBeqNe (c : Char) :
    ∀ (v : List Char), (v.dropWhile (fun x => x == c)).head? ≠ some c := by
  intro v
  induction v with
  | nil => simp
  | cons x xs ih =>
    rw [List.dropWhile_cons]
    by_cases h : (x == c) = true
    · rw [if_pos h]
      exact ih
    · rw [if_neg h]
      intro hh
      rw [List.head?_cons] at hh
      have hx : x = c := Option.some.inj hh
      exact h (by rw [hx]; exact beq_self_eq_true c)

/-- Claim C1, counterexample.  With the option BufferSize declared, the
space-delimited form split across two adjacent tokens, the token
--BufferSize followed by the value token 23, is not parsed
successfully: the two tokens are concatenated with no separator into
--BufferSize23, the stripped segment contains no delimiter, and the run
reaches the undefined no-delimiter value scan of the source (modelled
none); no state with the value assigned is produced. -/
theorem C1_counterexample :
    init pBuf 3 [ exeTok, ("--BufferSize".toList), ("23".toList) ] = none := by decide

/-- Claim C1, amended.  The space-delimited form is recognized only
when a delimiter character is part of the reassembled segment: a
single token holding the text --BufferSize 23, or the token
--BufferSize= followed by the adjacent value token 23, parses
successfully with the value 23 assigned to BufferSize; a bare
--longName token followed by a bare value token is concatenated with no
separator and is not parsed successfully. -/
theorem C1_amended :
    (initOk pBuf 3 [ exeTok, ("--BufferSize=".toList), ("23".toList) ] = true
      ∧ (get_param_option (afterInit pBuf 3 [ exeTok, ("--BufferSize=".toList), ("23".toList) ])
          nmBuffer).paramValue = ("23".toList))
    ∧ (initOk pBuf 2 [ exeTok, ("--BufferSize 23".toList) ] = true
      ∧ (get_param_option (afterInit pBuf 2 [ exeTok, ("--BufferSize 23".toList) ])
          nmBuffer).paramValue = ("23".toList)) := by decide

/-- Claim C2, counterexample.  For the option BufferSize declared with
default 1000 and never matched during parsing (a run with only the
executable token), the value read back as text is the empty string, not
the default: the text accessor reads paramValue only and never falls
back to defaultValue. -/
theorem C2_counterexample :
    initOk pBuf 1 [ exeTok ] = true
    ∧ get_value_string (get_param_option (afterInit pBuf 1 [ exeTok ]) nmBuffer)
        ≠ (get_param_option (afterInit pBuf 1 [ exeTok ]) nmBuffer).defaultValue := by decide

/-- Claim C2, amended.  For an option declared with default 1000 and
never matched, the value read back as text is the empty string (the
accessor reads the assigned value only; the default is not applied) and
the defaultValue field still holds 1000; once matched by the segment
--BufferSize:23, the integer accessor returns 23 and the defaultValue
field remains 1000 unchanged. -/
theorem C2_amended :
    (initOk pBuf 1 [ exeTok ] = true
      ∧ get_value_string (get_param_option (afterInit pBuf 1 [ exeTok ]) nmBuffer) = []
      ∧ (get_param_option (afterInit pBuf 1 [ exeTok ]) nmBuffer).defaultValue = ("1000".toList))
    ∧ (initOk pBuf 2 [ exeTok, ("--BufferSize:23".toList) ] = true
      ∧ get_value_int (get_param_option (afterInit pBuf 2 [ exeTok, ("--BufferSize:23".toList) ])
          nmBuffer) = some 23
      ∧ (get_param_option (afterInit pBuf 2 [ exeTok, ("--BufferSize:23".toList) ])
          nmBuffer).defaultValue = ("1000".toList)) := by decide

/-- Claim C3 names a genuine bug in the code: for a segment with no
delimiter, such as the flag-only token --BufferSize with BufferSize
declared, the source starts the value loop at one past the end iterator
of the segment string (value_iterator + 1 with value_iterator already
equal to end()) and reads past the end of the string; the model
evaluates the run to the undefined-behaviour marker none instead of the
well-defined name-is-whole-segment, value-empty split the claim
states. -/
theorem C3_noDelimiter_ub :
    init pBuf 2 [ exeTok, ("--BufferSize".toList) ] = none := by decide

/-- Claim C4 names a genuine bug in the code: when the copied argument
list is non-empty but contains no option-prefixed token (here argc = 2
with the sole argument opt1), the source evaluates find_if(start+1,
end) with start already the past-the-end iterator, before the
start == end break, reading past the vector: the model evaluates the
run to none instead of the success the claim states.  With argc = 1 the
loop is never entered and init does succeed with an empty raw-argument
list of length argc - 1 = 0. -/
theorem C4_noOption_ub :
    init emptyParse 2 [ exeTok, ("opt1".toList) ] = none
    ∧ initOk emptyParse 1 [ exeTok ] = true
    ∧ get_arguments (afterInit emptyParse 1 [ exeTok ]) = [] := by decide

/-- Claim C5, counterexample.  With only optionA (short name a)
declared, parsing app -a:16 -z:9 aborts with init false, but the single
recorded error is the bare text Option not found: with no option name
after it: the raw short name z has already been overwritten by the
empty result of the failed resolution before the error is logged, so no
recorded error names the offending option z. -/
theorem C5_counterexample :
    initOk pA 3 [ exeTok, ("-a:16".toList), ("-z:9".toList) ] = false
    ∧ get_errors (afterInit pA 3 [ exeTok, ("-a:16".toList), ("-z:9".toList) ])
        = [ ("Option not found: ".toList) ]
    ∧ ¬ (("Option not found: z".toList)
        ∈ get_errors (afterInit pA 3 [ exeTok, ("-a:16".toList), ("-z:9".toList) ])) := by decide

/-- Claim C5, amended.  An unresolved option name aborts the parse
immediately with init false and no rollback: options updated by earlier
segments keep their new values (optionA keeps 16).  For an unknown
long-form name the recorded error is Option not found: followed by that
name; for a failed short-form resolution the recorded error is the bare
Option not found: with an empty name, because the raw short name has
been overwritten by the empty resolution result before logging. -/
theorem C5_amended :
    (initOk pA 3 [ exeTok, ("-a:16".toList), ("-z:9".toList) ] = false
      ∧ get_errors (afterInit pA 3 [ exeTok, ("-a:16".toList), ("-z:9".toList) ])
          = [ ("Option not found: ".toList) ]
      ∧ (get_param_option (afterInit pA 3 [ exeTok, ("-a:16".toList), ("-z:9".toList) ])
          nmA).paramValue = ("16".toList))
    ∧ (initOk pA 2 [ exeTok, ("--nope=1".toList) ] = false
      ∧ get_errors (afterInit pA 2 [ exeTok, ("--nope=1".toList) ])
          = [ ("Option not found: nope".toList) ]) := by decide

/-- Claim C7, counterexample.  Value trimming does not strip exactly one
layer of surrounding double quotes: parsing the doubly quoted segment
--OutputFile=""C://Temp//"" succeeds, but the stored value is not the
singly quoted text that one-layer stripping would leave; every
surrounding quote layer is removed. -/
theorem C7_counterexample :
    initOk pOut 2 [ exeTok, ("--OutputFile=\"\"C://Temp//\"\"".toList) ] = true
    ∧ (get_param_option (afterInit pOut 2 [ exeTok, ("--OutputFile=\"\"C://Temp//\"\"".toList) ])
        nmOutput).paramValue ≠ ("\"C://Temp//\"".toList) := by decide

/-- Claim C7, amended.  Value trimming strips all layers of surrounding
double-quote characters, not exactly one: the segment
--OutputFile="C://Temp//" yields the text C://Temp// as the claim's
example states, but the doubly quoted segment --OutputFile=""C://Temp//""
also yields C://Temp//; in general the character-trim used on the value
leaves no leading and no trailing quote. -/
theorem C7_amended :
    (initOk pOut 2 [ exeTok, ("--OutputFile=\"C://Temp//\"".toList) ] = true
      ∧ (get_param_option (afterInit pOut 2 [ exeTok, ("--OutputFile=\"C://Temp//\"".toList) ])
          nmOutput).paramValue = ("C://Temp//".toList))
    ∧ ((get_param_option (afterInit pOut 2 [ exeTok, ("--OutputFile=\"\"C://Temp//\"\"".toList) ])
          nmOutput).paramValue = ("C://Temp//".toList))
    ∧ (∀ v : List Char, (ltrimChar v '\"').head? ≠ some '\"')
    ∧ (∀ v : List Char, ((rtrimChar v '\"').reverse).head? ≠ some '\"') := by
  refine ⟨by decide, by decide, ?_, ?_⟩
  · intro v
    exact headDropWhileBeqNe '\"' v
  · intro v
    rw [rtrimChar, List.reverse_reverse]
    exact headDropWhileBeqNe '\"' v.reverse

/-- Claim C8.  For every parser state, every non-positive argument
count and every token array, init fails with exactly the single error
No arguments given to application appended, and the executable name,
raw-argument list and option registry are untouched. -/
theorem C8_init_nonpositive (p : cmdParse) (argc : Int) (argv : List (List Char))
    (h : argc <= 0) :
    init p argc argv
      = some ({ p with m_errors := p.m_errors ++ [ ("No arguments given to application".toList) ] },
          false) := by
  rw [init.eq_def, if_pos h]

/-- Claim C8, witness: the theorem applied at argc = 0 on a fresh
parser with an empty token array. -/
theorem C8_init_nonpositive_witness :
    init emptyParse 0 []
      = some ({ emptyParse with
          m_errors := emptyParse.m_errors ++ [ ("No arguments given to application".toList) ] },
          false) :=
  C8_init_nonpositive emptyParse 0 [] (by decide)

/-- Claim C6.  For every parser state whose registry satisfies the
std::set sortedness invariant and every option whose key (lower-cased
long name) equals the key of some registered option, add_param_option
returns false, leaves the registry (and so the previously registered
entry) unchanged, and appends exactly the one error
Option already exists: followed by the new option's long name. -/
theorem C6_duplicate_add (p : cmdParse) (o : cmdOption)
    (hs : List.Pairwise (fun a b => optLt a b = true) p.m_parameter_options)
    (hdup : ∃ x ∈ p.m_parameter_options, optKey x = optKey o) :
    add_param_option p o
      = ({ p with m_errors := p.m_errors ++ [ ("Option already exists: ".toList) ++ o.longName ] },
          false) := by
  obtain ⟨x, hx, hk⟩ := hdup
  have hins := setInsert_of_memKey o x hk p.m_parameter_options hs hx
  simp only [add_param_option, hins]
  simp

/-- Option colliding with BufferSize up to case, for the C6 witness. -/
def oDup : cmdOption := mkOption ("BUFFERSIZE".toList) ("9".toList) ("B".toList)

/-- Claim C6, witness: adding BUFFERSIZE to the registry already holding
BufferSize. -/
theorem C6_duplicate_add_witness :
    add_param_option pBuf oDup
      = ({ pBuf with
          m_errors := pBuf.m_errors ++ [ ("Option already exists: ".toList) ++ oDup.longName ] },
          false) :=
  C6_duplicate_add pBuf oDup (by decide) (by decide)

/-- The two-option parser of the unit tests with an executable name. -/
def pHelp : cmdParse := { pBufOut with m_executable_name := ("Sample.exe".toList) }

/-- Claim C9, counterexample.  The generated help string does not begin
with the claimed header: after the exe name and the text [options] and
a newline, the next character is a space before the word where, so the
claimed header line without that space is not a prefix of the produced
string. -/
theorem C9_counterexample :
    (get_helpstring pHelp).take 41 = ("Sample.exe [options]\n where options are:\n".toList)
    ∧ (get_helpstring pHelp).take 40 ≠ ("Sample.exe [options]\nwhere options are:\n".toList) := by
  decide

/-- Claim C9, amended.  For every set of declared options with pairwise
distinct case-insensitive long names, in every declaration order, the
registry built by declaring them is sorted by case-insensitive long
name and holds exactly the declared options, and the help string equals
the header exe followed by the text [options], a newline, a space and
where options are: with a newline, then the fold of one line
(four spaces, -short, comma, --long) per registered option in that
sorted order, then the version footer. -/
theorem C9_amended (l : List cmdOption) (exe : List Char)
    (hk : List.Pairwise (fun a b => optKey a ≠ optKey b) l) :
    List.Pairwise (fun a b => optLt a b = true) (cmdParseOf l).m_parameter_options
    ∧ List.Perm (cmdParseOf l).m_parameter_options l
    ∧ get_helpstring { cmdParseOf l with m_executable_name := exe }
        = exe ++ (" [options]\n where options are:\n".toList)
          ++ ((cmdParseOf l).m_parameter_options.foldl (fun acc o => acc ++ helpLine o) [])
          ++ ("\n\n(version 1.0)".toList) := by
  obtain ⟨hsort, hperm⟩ := cmdParseOf_sorted_perm l hk
  refine ⟨hsort, hperm, ?_⟩
  simp only [get_helpstring]
  rw [helpFold_factor]

/-- The options of the unit tests declared in reverse alphabetical
order, for the C9 witness. -/
def lw9 : List cmdOption := [outOpt, bufOpt]

/-- Claim C9, witness: OutputFile and BufferSize declared in reverse
alphabetical order still give a sorted registry holding both, and the
help string with the space-carrying header. -/
theorem C9_amended_witness :
    List.Pairwise (fun a b => optLt a b = true) (cmdParseOf lw9).m_parameter_options
    ∧ List.Perm (cmdParseOf lw9).m_parameter_options lw9
    ∧ get_helpstring { cmdParseOf lw9 with m_executable_name := ("MyApp.exe".toList) }
        = ("MyApp.exe".toList) ++ (" [options]\n where options are:\n".toList)
          ++ ((cmdParseOf lw9).m_parameter_options.foldl (fun acc o => acc ++ helpLine o) [])
          ++ ("\n\n(version 1.0)".toList) :=
  C9_amended lw9 ("MyApp.exe".toList) (by decide)

/-- Claim C10.  For every cmdOption, has_value returns true exactly
when every character of the assigned paramValue is whitespace (so in
particular when it is empty): it is true for the never-matched
BufferSize option and false for the option after parsing the non-blank
value 23. -/
theorem C10_has_value_iff_blank (o : cmdOption) :
    (has_value o = true ↔ ∀ c ∈ o.paramValue, isSpaceCh c = true)
    ∧ has_value bufOpt = true
    ∧ has_value (get_param_option (afterInit pBuf 2 [ exeTok, ("--BufferSize:23".toList) ])
        nmBuffer) = false := by
  refine ⟨?_, by decide, by decide⟩
  simp only [has_value, is_blank]
  exact List.all_eq_true

end WGT
